import Mathlib

/-!
# The Executor reconciler (controllers/executor_controller.go)

A shallow embedding of `ExecutorReconciler.Reconcile` and of `ignoreNotFound`.

The calls that leave the process (the API client, the spawned commands, the
status writer, the logger) are modelled by a `World`: a record of what each
call answers.  `Reconcile` is a total function from a world and a request to a
`Pass`: the calls it made, in order, and what it returned.

Go strings are byte sequences; every string operation the controller uses
(`strings.Contains`, `fmt.Sprintf` with `%s`, splitting on an ASCII regular
expression) acts on bytes, so strings are lists of byte values.  The theorems
hold for every list of numbers, the byte sequences among them.

The source builds its commands with `exec.Command` and reads their pipes, but
it never calls `Start` or `Run` on them (lines 70-71 and 78, lines 83-85): no
process writes to a pipe, so in a run of the program a read that returns has
read no byte.  A `World` may answer a read with any bytes: the theorems stated
for every world, or for every answer of the executions, hold whatever the reads
deliver, the empty reads of the program among them.  The concrete worlds that
stand for runs of the program answer every read with no byte.
-/

namespace Controllers

/-! ## Strings -/

/-- A Go string: a finite sequence of bytes. -/
abbrev GoString := List Nat

/-- The bytes of an ASCII string literal of the source. -/
def lit (s : String) : GoString := s.toList.map Char.toNat

/-- The function `strings.HasPrefix`: does `s` begin with `p`. -/
def startsWith : GoString → GoString → Bool
  | _, [] => true
  | [], _ :: _ => false
  | a :: s, b :: p => a == b && startsWith s p

/-- The search of `strings.Index`, with `i` the offset of `s` in the whole
string: the index of the first instance of `substr`, or `-1`. -/
def indexFrom : GoString → GoString → Nat → Int
  | [], substr, i => if substr = [] then (i : Int) else -1
  | b :: rest, substr, i =>
    if startsWith (b :: rest) substr then (i : Int) else indexFrom rest substr (i + 1)

/-- The function `strings.Index`. -/
def Index (s substr : GoString) : Int := indexFrom s substr 0

/-- The function `strings.Contains`: `Index(s, substr) >= 0`. -/
def Contains (s substr : GoString) : Bool := decide (Index s substr ≥ 0)

/-! ## The regular expression of line 79

The pattern handed to `regexp.MustCompile` is the five-token expression
slash, `\s+`, slash.  Go has no regex delimiters, so both slashes are
literal: a match is a slash, one or more whitespace bytes, and a slash.
The class `\s` of Go is tab, newline, form feed, carriage return and
space.  Whitespace and the slash are disjoint, so the greedy run of `\s+` is
the maximal whitespace run and the match at a position is unique. -/

/-- The byte of the slash character. -/
def slash : Nat := 47

/-- The class `\s` of Go regular expressions: `[\t\n\f\r ]`. -/
def isSpace (b : Nat) : Bool := b == 9 || b == 10 || b == 12 || b == 13 || b == 32

/-- The length of the match of the compiled expression anchored at the head
of the input, if there is one. -/
def matchLen : GoString → Option Nat
  | [] => none
  | b :: rest =>
    if b = slash then
      let ws := rest.takeWhile isSpace
      if ws.length = 0 then none
      else
        match rest.drop ws.length with
        | [] => none
        | c :: _ => if c = slash then some (ws.length + 2) else none
    else none

/-- The function `FindAllStringIndex`: the successive non-overlapping leftmost
matches as (start, end) offsets.  `pos` is the offset of the input in the whole
string and `skip` the number of bytes still inside the previous match. -/
def findAllIndex : GoString → Nat → Nat → List (Nat × Nat)
  | [], _, _ => []
  | _ :: rest, pos, skip + 1 => findAllIndex rest (pos + 1) skip
  | b :: rest, pos, 0 =>
    match matchLen (b :: rest) with
    | some n => (pos, pos + n) :: findAllIndex rest (pos + 1) (n - 1)
    | none => findAllIndex rest (pos + 1) 0

/-- The slice expression `s[lo:hi]`. -/
def slice (s : GoString) (lo hi : Nat) : GoString := (s.drop lo).take (hi - lo)

/-- The loop of `Regexp.Split` over the matches, with its variables `beg` and
`end` (here `fin`), for the limit `n = -1`. -/
def splitLoop (s : GoString) : List (Nat × Nat) → Nat → Nat → List GoString
  | [], beg, fin => if fin ≠ s.length then [s.drop beg] else []
  | m :: ms, beg, _ =>
    if m.2 ≠ 0 then slice s beg m.1 :: splitLoop s ms m.2 m.1
    else splitLoop s ms m.2 m.1

/-- The call `regexp.MustCompile(...).Split(s, -1)` of line 79. -/
def Split (s : GoString) : List GoString :=
  if s.length = 0 then [[]] else splitLoop s (findAllIndex s 0 0) 0 0

/-! ## Data model -/

/-- An error value; `notFound` is what `apierrs.IsNotFound` answers for it. -/
structure GoError where
  notFound : Bool
  message : GoString
deriving DecidableEq, Repr

/-- Modelled from the spec: the `Spec` part of the `Executor` type of package
`exec/api/v1`, which is not among the sources.  The spec names its fields
`containerNamePattern` and `command`; the controller reads them as
`Spec.ContainerName` and `Spec.Command`. -/
structure ExecutorSpec where
  ContainerName : GoString
  Command : GoString
deriving DecidableEq, Repr

/-- Modelled from the spec: the `Status` part of the `Executor` type of package
`exec/api/v1`, which is not among the sources.  The spec names its field
`observedOutput`; the controller writes it as `Status.Output`. -/
structure ExecutorStatus where
  Output : GoString
deriving DecidableEq, Repr

/-- Modelled from the spec: the `Executor` type of package `exec/api/v1`, which
is not among the sources: the declared intent and the observed status. -/
structure Executor where
  Spec : ExecutorSpec
  Status : ExecutorStatus
deriving DecidableEq, Repr

/-- The request `ctrl.Request`: the namespaced name of the resource. -/
structure Request where
  Namespace : GoString
  Name : GoString
deriving DecidableEq, Repr

/-- The value `ctrl.Result`. -/
structure Result where
  Requeue : Bool
  RequeueAfter : Int
deriving DecidableEq, Repr

/-- The composite literal `ctrl.Result{}`: no requeue. -/
def Result.empty : Result := ⟨false, 0⟩

/-- What the controller observes of one command it builds: `StdoutPipe`
either fails, leaving a nil reader, or gives a reader from which
`ioutil.ReadAll` returns the bytes read and possibly an error. -/
inductive PipeRead where
  | pipeFailed (err : GoError)
  | read (output : GoString) (err : Option GoError)
deriving DecidableEq, Repr

/-- The calls a pass makes outside the process, in the order made. -/
inductive Event where
  | get (key : Request)
  | logError (err : GoError) (msg : GoString)
  | command (args : List GoString)
  | statusUpdate (obj : Executor)
deriving DecidableEq, Repr

/-- The answers of the environment.  `exec k args` is what the `k`-th command
built by the loop (counting from zero) lets the controller observe. -/
structure World where
  Get : Request → Except GoError Executor
  pods : List GoString → PipeRead
  exec : Nat → List GoString → PipeRead
  StatusUpdate : Executor → Option GoError

/-- One run of `Reconcile`: the calls made and the pair returned; `ret` is
`none` when the run did not return (reading from a nil reader panics). -/
structure Pass where
  events : List Event
  ret : Option (Result × Option GoError)

/-! ## The controller -/

/-- The function `apierrs.IsNotFound`; a nil error is not a not-found error. -/
def IsNotFound : Option GoError → Bool
  | none => false
  | some e => e.notFound

/-- The function `ignoreNotFound` (lines 45-50). -/
def ignoreNotFound (err : Option GoError) : Option GoError :=
  if IsNotFound err then none else err

/-- The call `fmt.Sprintf("Container: %s\noutput: %s\n", container, string(output))`
of line 86. -/
def sprintfEntry (container output : GoString) : GoString :=
  lit "Container: " ++ container ++ lit "\noutput: " ++ output ++ lit "\n"

/-- The arguments of the command of line 70. -/
def podsArgs (req : Request) : List GoString :=
  [lit "kubectl", lit "get", lit "pods", lit "--namespace", req.Namespace, lit "-o", lit "name"]

/-- The arguments of the command of line 83 (the binary name is spelled as in
the source). -/
def execArgs (container command : GoString) : List GoString :=
  [lit "kubctl", lit "exec", lit "-t", container, command]

/-- The loop of lines 81-88 over the remaining containers, with `k` the number
of commands built so far and `finalOut` the report so far.  It gives the
commands built and the final report, or `none` if a read panicked. -/
def reconcileLoop (executor : Executor) (exec : Nat → List GoString → PipeRead) :
    List GoString → Nat → GoString → List Event × Option GoString
  | [], _, finalOut => ([], some finalOut)
  | container :: rest, k, finalOut =>
    if Contains container executor.Spec.ContainerName then
      let args := execArgs container executor.Spec.Command
      match exec k args with
      | .pipeFailed _ => ([Event.command args], none)
      | .read output _ =>
        let r := reconcileLoop executor exec rest (k + 1) (finalOut ++ sprintfEntry container output)
        (Event.command args :: r.1, r.2)
    else reconcileLoop executor exec rest k finalOut

/-- The method `ExecutorReconciler.Reconcile` (lines 59-97). -/
def Reconcile (w : World) (req : Request) : Pass :=
  match w.Get req with
  | .error err =>
    ⟨[Event.get req, Event.logError err (lit "unable to fetch CronJob")],
      some (Result.empty, ignoreNotFound (some err))⟩
  | .ok executor =>
    match w.pods (podsArgs req) with
    | .pipeFailed _ =>
      ⟨[Event.get req, Event.command (podsArgs req)], some (Result.empty, none)⟩
    | .read slurp _ =>
      let containersRaw := Split slurp
      let r := reconcileLoop executor w.exec containersRaw 0 []
      match r.2 with
      | none => ⟨[Event.get req, Event.command (podsArgs req)] ++ r.1, none⟩
      | some finalOut =>
        let updated : Executor := ⟨executor.Spec, ⟨finalOut⟩⟩
        match w.StatusUpdate updated with
        | some err =>
          ⟨[Event.get req, Event.command (podsArgs req)] ++ r.1 ++
              [Event.statusUpdate updated,
               Event.logError err (lit "Unable to update executor status")],
            some (Result.empty, none)⟩
        | none =>
          ⟨[Event.get req, Event.command (podsArgs req)] ++ r.1 ++
              [Event.statusUpdate updated],
            some (Result.empty, none)⟩

/-- The objects handed to the status writer during a pass. -/
def statusWrites : List Event → List Executor
  | [] => []
  | Event.statusUpdate obj :: es => obj :: statusWrites es
  | _ :: es => statusWrites es

/-- The argument lists of the commands built during a pass. -/
def commandsBuilt : List Event → List (List GoString)
  | [] => []
  | Event.command args :: es => args :: commandsBuilt es
  | _ :: es => commandsBuilt es


/-! ## The words of the spec -/

/-- The matched containers in the words of the spec: the sub-sequence of the
discovered names that contain the pattern as a substring. -/
def matchedContainers (P : GoString) (L : List GoString) : List GoString :=
  L.filter (fun c => decide (P <:+: c))

/-- The entries of a report in the words of the spec: one per matched container,
in match order, the `k`-th being the header with the name of the `k`-th match
and the output line with what the `k`-th execution captured. -/
def reportEntries (command : GoString)
    (outs : Nat → List GoString → GoString × Option GoError)
    (matched : List GoString) : List GoString :=
  matched.enum.map (fun kc =>
    lit "Container: " ++ kc.2 ++ lit "\noutput: " ++
      (outs kc.1 (execArgs kc.2 command)).1 ++ lit "\n")

/-- The (container name, captured output) pairs of a pass in the words of the
spec: the `k`-th matched container with what the `k`-th execution captured. -/
def capturedPairs (command : GoString)
    (outs : Nat → List GoString → GoString × Option GoError)
    (matched : List GoString) : List (GoString × GoString) :=
  matched.enum.map (fun kc => (kc.2, (outs kc.1 (execArgs kc.2 command)).1))

/-- The byte of the newline character. -/
def newline : Nat := 10

/-! ## Concrete inputs -/

/-- A request for the resource `default/batch`. -/
def demoRequest : Request := ⟨lit "default", lit "batch"⟩

/-- The declaration of the end-to-end scenarios, with a status left by an
earlier pass. -/
def demoExecutor : Executor := ⟨⟨lit "web", lit "echo hi"⟩, ⟨lit "stale"⟩⟩

/-- A not-found error of the API client. -/
def errNotFound : GoError := ⟨true, lit "executors.exec batch not found"⟩

/-- An error of the API client that is not a not-found error. -/
def errTimeout : GoError := ⟨false, lit "context deadline exceeded"⟩

/-- The error of a pipe that could not be created. -/
def errPipe : GoError := ⟨false, lit "pipe: too many open files"⟩

/-- Answers in which every execution captures the line that `echo hi` prints,
without error, as a started command would give. -/
def demoOuts : Nat → List GoString → GoString × Option GoError :=
  fun _ _ => (lit "hi\n", none)

/-- What the read of a command that was never started returns: no byte. -/
def unstartedRead : PipeRead := PipeRead.read [] none

/-- The world of end-to-end scenario 1 as the program meets it: the fetch gives
the declaration, and whatever containers the cluster holds (web-1, web-2 and
db-1 in the scenario), the listing command and the execution commands are never
started, so each read returns no byte. -/
def unstartedWorld : World :=
  ⟨fun _ => Except.ok demoExecutor,
   fun _ => unstartedRead,
   fun _ _ => unstartedRead,
   fun _ => none⟩

/-- A world whose resource has been deleted. -/
def deletedWorld : World :=
  ⟨fun _ => Except.error errNotFound,
   fun _ => unstartedRead,
   fun _ _ => unstartedRead,
   fun _ => none⟩

/-- A world whose API client times out on the fetch. -/
def unreachableWorld : World :=
  ⟨fun _ => Except.error errTimeout,
   fun _ => unstartedRead,
   fun _ _ => unstartedRead,
   fun _ => none⟩

/-- A world whose pipe for the pod listing cannot be created. -/
def pipeFailWorld : World :=
  ⟨fun _ => Except.ok demoExecutor,
   fun _ => PipeRead.pipeFailed errPipe,
   fun _ _ => unstartedRead,
   fun _ => none⟩

/-- A world whose read of the pod listing fails before a byte is read. -/
def emptyReadWorld : World :=
  ⟨fun _ => Except.ok demoExecutor,
   fun _ => PipeRead.read [] (some errTimeout),
   fun _ _ => unstartedRead,
   fun _ => none⟩

/-- Every execution times out having captured nothing. -/
def timedOutOuts : Nat → List GoString → GoString × Option GoError :=
  fun _ _ => ([], some errTimeout)

/-- Every execution succeeds having printed nothing. -/
def silentOuts : Nat → List GoString → GoString × Option GoError :=
  fun _ _ => ([], none)

/-- A declaration whose empty pattern matches every container. -/
def matchAllExecutor : Executor := ⟨⟨[], lit "echo hi"⟩, ⟨[]⟩⟩

/-- A world of the program with the declaration of the empty pattern: the
listing read returns no byte, which the split turns into one empty container
name that the empty pattern matches, and the pipe of the one execution command
cannot be created. -/
def execPipeFailWorld : World :=
  ⟨fun _ => Except.ok matchAllExecutor,
   fun _ => unstartedRead,
   fun _ _ => PipeRead.pipeFailed errPipe,
   fun _ => none⟩

/-- The one execution captures text that itself looks like the end of an entry
followed by the header of another. -/
def collidingOuts : Nat → List GoString → GoString × Option GoError :=
  fun _ _ => (lit "x\nContainer: b\noutput: y", none)

/-- The first execution captures `x`, the later ones `y`. -/
def plainOuts : Nat → List GoString → GoString × Option GoError :=
  fun k _ => if k = 0 then (lit "x", none) else (lit "y", none)

/-- The world of scenario 1 with another status left by the earlier pass. -/
def otherPriorWorld : World :=
  ⟨fun _ => Except.ok ⟨demoExecutor.Spec, ⟨lit "older"⟩⟩,
   fun _ => unstartedRead,
   fun _ _ => unstartedRead,
   fun _ => none⟩

/-- The error of a rejected status update. -/
def errConflict : GoError := ⟨false, lit "the object has been modified"⟩

/-- The world of scenario 1 with a status writer that rejects every update. -/
def failingWriteWorld : World :=
  ⟨fun _ => Except.ok demoExecutor,
   fun _ => unstartedRead,
   fun _ _ => unstartedRead,
   fun _ => some errConflict⟩

/-- A declaration with the pattern `e` and the command `date`. -/
def dateExecutor : Executor := ⟨⟨lit "e", lit "date"⟩, ⟨lit "stale"⟩⟩

/-! ## `strings.Contains` is the substring relation -/

theorem startsWith_iff (s p : GoString) : startsWith s p = true ↔ p <+: s := by
  induction s generalizing p with
  | nil =>
    cases p with
    | nil => simp [startsWith]
    | cons b p => simp [startsWith]
  | cons a s ih =>
    cases p with
    | nil => simp [startsWith]
    | cons b p =>
      simp only [startsWith, Bool.and_eq_true, beq_iff_eq, ih, List.cons_prefix_cons]
      constructor
      · rintro ⟨h1, h2⟩
        exact ⟨h1.symm, h2⟩
      · rintro ⟨h1, h2⟩
        exact ⟨h1.symm, h2⟩

theorem indexFrom_nonneg_iff (s p : GoString) (i : Nat) :
    0 ≤ indexFrom s p i ↔ p <:+: s := by
  induction s generalizing i with
  | nil =>
    by_cases hp : p = []
    · simp [indexFrom, hp]
    · simp [indexFrom, hp]
  | cons b rest ih =>
    rw [List.infix_cons_iff]
    unfold indexFrom
    by_cases h : startsWith (b :: rest) p = true
    · simp only [h, if_true]
      constructor
      · intro _
        exact Or.inl ((startsWith_iff _ _).1 h)
      · intro _
        exact Int.ofNat_nonneg i
    · have hn : ¬ p <+: b :: rest := fun hp => h ((startsWith_iff _ _).2 hp)
      simp only [h, if_false, Bool.false_eq_true]
      rw [ih]
      constructor
      · intro hh
        exact Or.inr hh
      · rintro (hh | hh)
        · exact absurd hh hn
        · exact hh

theorem Contains_iff (s p : GoString) : Contains s p = true ↔ p <:+: s := by
  unfold Contains Index
  rw [decide_eq_true_iff]
  exact indexFrom_nonneg_iff s p 0


/-! ## The loop -/

theorem matchedContainers_cons (P c : GoString) (L : List GoString) :
    matchedContainers P (c :: L) =
      if Contains c P then c :: matchedContainers P L else matchedContainers P L := by
  unfold matchedContainers
  by_cases h : Contains c P = true
  · have hi : P <:+: c := (Contains_iff c P).1 h
    simp [h, hi]
  · have hi : ¬ P <:+: c := fun hp => h ((Contains_iff c P).2 hp)
    simp [h, hi]

/-- When every command of the loop gets its pipe, the loop builds one command
per matched container and appends one entry per matched container, in order. -/
theorem reconcileLoop_reads (executor : Executor) (exec : Nat → List GoString → PipeRead)
    (outs : Nat → List GoString → GoString × Option GoError)
    (hexec : ∀ k args, exec k args = PipeRead.read (outs k args).1 (outs k args).2)
    (L : List GoString) (k : Nat) (acc : GoString) :
    reconcileLoop executor exec L k acc =
      ((matchedContainers executor.Spec.ContainerName L).map
          (fun c => Event.command (execArgs c executor.Spec.Command)),
        some (acc ++ (((matchedContainers executor.Spec.ContainerName L).enumFrom k).map
          (fun kc => sprintfEntry kc.2
            (outs kc.1 (execArgs kc.2 executor.Spec.Command)).1)).flatten)) := by
  induction L generalizing k acc with
  | nil => simp [reconcileLoop, matchedContainers]
  | cons c rest ih =>
    rw [matchedContainers_cons]
    unfold reconcileLoop
    by_cases h : Contains c executor.Spec.ContainerName = true
    · simp only [h, if_true, hexec, ih, List.map_cons, List.enumFrom_cons, List.flatten_cons,
        List.append_assoc]
    · simp only [h, if_false, Bool.false_eq_true, ih]

theorem statusWrites_append (xs ys : List Event) :
    statusWrites (xs ++ ys) = statusWrites xs ++ statusWrites ys := by
  induction xs with
  | nil => simp [statusWrites]
  | cons e es ih =>
    cases e <;> simp [statusWrites, ih]


theorem reportEntries_eq (command : GoString)
    (outs : Nat → List GoString → GoString × Option GoError) (matched : List GoString) :
    reportEntries command outs matched =
      (matched.enumFrom 0).map
        (fun kc => sprintfEntry kc.2 (outs kc.1 (execArgs kc.2 command)).1) := rfl

/-- A pass whose fetch and listing succeed and whose commands all get their
pipe: it writes the report of the matched containers once and returns done. -/
theorem Reconcile_reads (w : World) (req : Request) (executor : Executor)
    (slurp : GoString) (rerr : Option GoError)
    (outs : Nat → List GoString → GoString × Option GoError)
    (hget : w.Get req = Except.ok executor)
    (hpods : w.pods (podsArgs req) = PipeRead.read slurp rerr)
    (hexec : ∀ k args, w.exec k args = PipeRead.read (outs k args).1 (outs k args).2) :
    statusWrites (Reconcile w req).events =
        [⟨executor.Spec, ⟨(reportEntries executor.Spec.Command outs
          (matchedContainers executor.Spec.ContainerName (Split slurp))).flatten⟩⟩]
      ∧ (Reconcile w req).ret = some (Result.empty, none) := by
  unfold Reconcile
  simp only [hget, hpods]
  rw [reconcileLoop_reads executor w.exec outs hexec]
  simp only [List.nil_append, reportEntries_eq]
  have hmap : ∀ (l : List GoString),
      statusWrites (l.map (fun c => Event.command (execArgs c executor.Spec.Command))) = [] := by
    intro l
    induction l with
    | nil => rfl
    | cons a l ih => simpa [statusWrites] using ih
  cases hu : w.StatusUpdate _ with
  | none => simp [statusWrites, statusWrites_append, hmap]
  | some e => simp [statusWrites, statusWrites_append, hmap]

/-! ## The claims -/

/-- C1: for every pattern and every ordered list of discovered container names,
when every execution captures its output, the loop of Reconcile builds one
command and emits one report entry for exactly the sub-sequence of the list whose
names contain the pattern as a substring, in the order of the list: the commands
are those of the matched sub-sequence, the report is the concatenation of its
entries, and the matched names are a sub-list holding exactly the members of the
list that contain the pattern. -/
theorem C1_loop_reports_matched_subsequence (executor : Executor)
    (exec : Nat → List GoString → PipeRead)
    (outs : Nat → List GoString → GoString × Option GoError)
    (hexec : ∀ k args, exec k args = PipeRead.read (outs k args).1 (outs k args).2)
    (L : List GoString) :
    (reconcileLoop executor exec L 0 []).1 =
        (matchedContainers executor.Spec.ContainerName L).map
          (fun c => Event.command (execArgs c executor.Spec.Command))
      ∧ (reconcileLoop executor exec L 0 []).2 =
        some (reportEntries executor.Spec.Command outs
          (matchedContainers executor.Spec.ContainerName L)).flatten
      ∧ List.Sublist (matchedContainers executor.Spec.ContainerName L) L
      ∧ ∀ c, c ∈ matchedContainers executor.Spec.ContainerName L ↔
          c ∈ L ∧ executor.Spec.ContainerName <:+: c := by
  rw [reconcileLoop_reads executor exec outs hexec]
  refine ⟨rfl, ?_, ?_, ?_⟩
  · simp [reportEntries_eq]
  · exact List.filter_sublist L
  · intro c
    simp [matchedContainers, List.mem_filter]

/-- C1 at a concrete input: of the names web-1, db-1, web-2 and the pattern web
the loop reports web-1 and web-2, in that order. -/
theorem C1_loop_reports_matched_subsequence_witness :
    (reconcileLoop demoExecutor
        (fun k args => PipeRead.read (demoOuts k args).1 (demoOuts k args).2)
        [lit "web-1", lit "db-1", lit "web-2"] 0 []).2 =
      some (reportEntries (lit "echo hi") demoOuts [lit "web-1", lit "web-2"]).flatten :=
  (C1_loop_reports_matched_subsequence demoExecutor
    (fun k args => PipeRead.read (demoOuts k args).1 (demoOuts k args).2) demoOuts
    (fun _ _ => rfl) [lit "web-1", lit "db-1", lit "web-2"]).2.1


/-- When every execution command gets its pipe, whatever output and read error
each read returns, the report written to the status is the concatenation, in
match order, of one entry per matched container, each entry being the header
with the name followed by the output line with the captured output; there are as
many entries as matched containers. -/
theorem report_of_captured_outputs (w : World) (req : Request)
    (executor : Executor) (slurp : GoString) (rerr : Option GoError)
    (outs : Nat → List GoString → GoString × Option GoError)
    (hget : w.Get req = Except.ok executor)
    (hpods : w.pods (podsArgs req) = PipeRead.read slurp rerr)
    (hexec : ∀ k args, w.exec k args = PipeRead.read (outs k args).1 (outs k args).2) :
    statusWrites (Reconcile w req).events =
        [⟨executor.Spec, ⟨(reportEntries executor.Spec.Command outs
          (matchedContainers executor.Spec.ContainerName (Split slurp))).flatten⟩⟩]
      ∧ (reportEntries executor.Spec.Command outs
          (matchedContainers executor.Spec.ContainerName (Split slurp))).length =
        (matchedContainers executor.Spec.ContainerName (Split slurp)).length
      ∧ ∀ k c, (matchedContainers executor.Spec.ContainerName (Split slurp))[k]? = some c →
          (reportEntries executor.Spec.Command outs
            (matchedContainers executor.Spec.ContainerName (Split slurp)))[k]? =
          some (lit "Container: " ++ c ++ lit "\noutput: " ++
            (outs k (execArgs c executor.Spec.Command)).1 ++ lit "\n") := by
  refine ⟨(Reconcile_reads w req executor slurp rerr outs hget hpods hexec).1, ?_, ?_⟩
  · simp [reportEntries, List.enum]
  · intro k c hk
    simp [reportEntries, List.enum, hk]

/-- The loop only builds commands: it never writes the status. -/
theorem statusWrites_reconcileLoop (executor : Executor) (exec : Nat → List GoString → PipeRead)
    (L : List GoString) (k : Nat) (acc : GoString) :
    statusWrites (reconcileLoop executor exec L k acc).1 = [] := by
  induction L generalizing k acc with
  | nil => simp [reconcileLoop, statusWrites]
  | cons c rest ih =>
    unfold reconcileLoop
    by_cases h : Contains c executor.Spec.ContainerName = true
    · simp only [h, if_true]
      cases hx : exec k (execArgs c executor.Spec.Command) with
      | pipeFailed e => simp [statusWrites]
      | read o e => simp [statusWrites, ih]
    · simp only [h, if_false, Bool.false_eq_true, ih]

/-- If the pipe of the `j`-th execution command cannot be created and the loop
has at least `j + 1` matched containers ahead, the loop ends in the panic of the
read from the nil reader: no report comes out of it. -/
theorem reconcileLoop_pipe_failure (executor : Executor)
    (exec : Nat → List GoString → PipeRead) (j : Nat)
    (hfail : ∀ args, ∃ e, exec j args = PipeRead.pipeFailed e)
    (L : List GoString) (k : Nat) (acc : GoString)
    (hk : k ≤ j)
    (hj : j < k + (matchedContainers executor.Spec.ContainerName L).length) :
    (reconcileLoop executor exec L k acc).2 = none := by
  induction L generalizing k acc with
  | nil =>
    simp [matchedContainers] at hj
    omega
  | cons c rest ih =>
    rw [matchedContainers_cons] at hj
    unfold reconcileLoop
    by_cases h : Contains c executor.Spec.ContainerName = true
    · simp only [h, if_true, List.length_cons] at hj ⊢
      cases hx : exec k (execArgs c executor.Spec.Command) with
      | pipeFailed e => rfl
      | read o e =>
        have hne : k ≠ j := by
          intro e1
          obtain ⟨e2, he2⟩ := hfail (execArgs c executor.Spec.Command)
          rw [← e1, hx] at he2
          cases he2
        exact ih (k + 1) _ (by omega) (by omega)
    · simp only [h, if_false, Bool.false_eq_true] at hj ⊢
      exact ih k acc hk hj

/-- Whenever the pipe of one matched execution cannot be created, the pass does
not return and writes no status: the entries of the executions that did
capture their output are lost with it. -/
theorem Reconcile_exec_pipe_failure (w : World) (req : Request)
    (executor : Executor) (slurp : GoString) (rerr : Option GoError) (j : Nat)
    (hget : w.Get req = Except.ok executor)
    (hpods : w.pods (podsArgs req) = PipeRead.read slurp rerr)
    (hj : j < (matchedContainers executor.Spec.ContainerName (Split slurp)).length)
    (hfail : ∀ args, ∃ e, w.exec j args = PipeRead.pipeFailed e) :
    statusWrites (Reconcile w req).events = [] ∧ (Reconcile w req).ret = none := by
  have hnone := reconcileLoop_pipe_failure executor w.exec j hfail (Split slurp) 0 []
    (Nat.zero_le j) (by omega)
  unfold Reconcile
  rw [hget]
  simp only [hpods, hnone]
  rw [statusWrites_append, statusWrites_reconcileLoop]
  simp [statusWrites]

/-- C2 on the code: with the declaration of the empty pattern, the listing read
returns no byte, the split gives one empty container name and the pattern
matches it, so there is one matched container; the pipe of its execution
command cannot be created, the error is discarded, and the read from the nil
reader panics: the pass builds the two commands, does not return and writes no
status, where the claim has a report of one entry. -/
theorem C2_exec_pipe_failure_writes_no_report :
    execPipeFailWorld.Get demoRequest = Except.ok matchAllExecutor
      ∧ execPipeFailWorld.pods (podsArgs demoRequest) = PipeRead.read [] none
      ∧ matchedContainers matchAllExecutor.Spec.ContainerName (Split []) = [[]]
      ∧ execPipeFailWorld.exec 0 (execArgs [] (lit "echo hi")) = PipeRead.pipeFailed errPipe
      ∧ commandsBuilt (Reconcile execPipeFailWorld demoRequest).events =
          [podsArgs demoRequest, execArgs [] (lit "echo hi")]
      ∧ statusWrites (Reconcile execPipeFailWorld demoRequest).events = []
      ∧ (Reconcile execPipeFailWorld demoRequest).ret = none
      ∧ statusWrites (Reconcile execPipeFailWorld demoRequest).events ≠
          [⟨matchAllExecutor.Spec, ⟨lit "Container: \noutput: \n"⟩⟩] := by
  refine ⟨rfl, rfl, ?_, rfl, ?_, ?_, ?_, ?_⟩ <;> decide

/-- C3: if the fetch of the declaration fails with a not-found error, Reconcile
returns the empty Result with a nil error, and it attempts no status update and
builds no command. -/
theorem C3_not_found_is_noop (w : World) (req : Request) (err : GoError)
    (hget : w.Get req = Except.error err)
    (hnf : IsNotFound (some err) = true) :
    (Reconcile w req).ret = some (Result.empty, none)
      ∧ statusWrites (Reconcile w req).events = []
      ∧ commandsBuilt (Reconcile w req).events = [] := by
  unfold Reconcile
  rw [hget]
  refine ⟨?_, rfl, rfl⟩
  simp [ignoreNotFound, hnf]

/-- C3 at a concrete input: the resource was deleted. -/
theorem C3_not_found_is_noop_witness :
    (Reconcile deletedWorld demoRequest).ret = some (Result.empty, none)
      ∧ statusWrites (Reconcile deletedWorld demoRequest).events = []
      ∧ commandsBuilt (Reconcile deletedWorld demoRequest).events = [] :=
  C3_not_found_is_noop deletedWorld demoRequest errNotFound rfl rfl

/-- C4: if the fetch of the declaration fails with an error that is not a
not-found error, Reconcile returns that error with the empty Result, and it
attempts no status update and builds no command (no listing, no execution): its
only calls are the fetch and the log of the error. -/
theorem C4_other_fetch_error_is_returned (w : World) (req : Request) (err : GoError)
    (hget : w.Get req = Except.error err)
    (hnf : IsNotFound (some err) = false) :
    (Reconcile w req).ret = some (Result.empty, some err)
      ∧ statusWrites (Reconcile w req).events = []
      ∧ commandsBuilt (Reconcile w req).events = []
      ∧ (Reconcile w req).events =
        [Event.get req, Event.logError err (lit "unable to fetch CronJob")] := by
  unfold Reconcile
  rw [hget]
  refine ⟨?_, rfl, rfl, rfl⟩
  simp [ignoreNotFound, hnf]

/-- C4 at a concrete input: the API client timed out. -/
theorem C4_other_fetch_error_is_returned_witness :
    (Reconcile unreachableWorld demoRequest).ret = some (Result.empty, some errTimeout)
      ∧ statusWrites (Reconcile unreachableWorld demoRequest).events = [] :=
  ⟨(C4_other_fetch_error_is_returned unreachableWorld demoRequest errTimeout rfl rfl).1,
   (C4_other_fetch_error_is_returned unreachableWorld demoRequest errTimeout rfl rfl).2.1⟩


theorem Split_nil : Split [] = [[]] := rfl

theorem Contains_nil_left (P : GoString) (hP : P ≠ []) : Contains [] P = false := by
  simp [Contains, Index, indexFrom, hP]

/-- A listing without a slash is never split: it is one container name. -/
theorem findAllIndex_of_no_slash (s : GoString) (pos : Nat) (h : slash ∉ s) :
    findAllIndex s pos 0 = [] := by
  induction s generalizing pos with
  | nil => rfl
  | cons b rest ih =>
    have hb : b ≠ slash := fun e => h (by simp [e])
    have hr : slash ∉ rest := fun e => h (List.mem_cons_of_mem _ e)
    simp [findAllIndex, matchLen, hb, ih _ hr]

theorem Split_of_no_slash (s : GoString) (h : slash ∉ s) : Split s = [s] := by
  unfold Split
  by_cases hs : s.length = 0
  · have : s = [] := List.length_eq_zero.1 hs
    simp [this]
  · rw [findAllIndex_of_no_slash s 0 h]
    simp only [hs, if_false, splitLoop]
    have : (0 : Nat) ≠ s.length := fun e => hs e.symm
    simp [this]

/-- C5, as stated, fails: when the pipe of the pod listing cannot be created the
pass does not reach the status write, so the empty report is not written. -/
theorem C5_pipe_failure_skips_status_write :
    pipeFailWorld.Get demoRequest = Except.ok demoExecutor
      ∧ pipeFailWorld.pods (podsArgs demoRequest) = PipeRead.pipeFailed errPipe
      ∧ statusWrites (Reconcile pipeFailWorld demoRequest).events ≠
          [⟨demoExecutor.Spec, ⟨[]⟩⟩]
      ∧ statusWrites (Reconcile pipeFailWorld demoRequest).events = [] := by
  refine ⟨rfl, rfl, ?_, ?_⟩ <;> decide

/-- C5 amended: if the listing fails, either because its pipe cannot be created
or because its read fails with nothing read while the pattern is not empty, then
for every previous status Reconcile returns the empty Result with a nil error;
in the first case it attempts no status update and builds no command but the
listing, in the second it writes the empty report. -/
theorem C5_listing_failure_returns_done (w : World) (req : Request) (executor : Executor)
    (hget : w.Get req = Except.ok executor)
    (hfail : (∃ e, w.pods (podsArgs req) = PipeRead.pipeFailed e) ∨
      (∃ e, w.pods (podsArgs req) = PipeRead.read [] (some e)
        ∧ executor.Spec.ContainerName ≠ [])) :
    (Reconcile w req).ret = some (Result.empty, none)
      ∧ (∀ e, w.pods (podsArgs req) = PipeRead.pipeFailed e →
          statusWrites (Reconcile w req).events = []
          ∧ commandsBuilt (Reconcile w req).events = [podsArgs req])
      ∧ (∀ e, w.pods (podsArgs req) = PipeRead.read [] (some e) →
          statusWrites (Reconcile w req).events = [⟨executor.Spec, ⟨[]⟩⟩]
          ∧ commandsBuilt (Reconcile w req).events = [podsArgs req]) := by
  have hloop : executor.Spec.ContainerName ≠ [] →
      reconcileLoop executor w.exec [[]] 0 [] = ([], some []) := by
    intro hP
    simp [reconcileLoop, Contains_nil_left _ hP]
  rcases hfail with ⟨e, he⟩ | ⟨e, he, hP⟩
  · refine ⟨?_, ?_, ?_⟩
    · unfold Reconcile
      rw [hget]
      simp only [he]
    · intro e2 _
      unfold Reconcile
      rw [hget]
      simp only [he]
      exact ⟨rfl, rfl⟩
    · intro e2 he2
      rw [he] at he2
      cases he2
  · refine ⟨?_, ?_, ?_⟩
    · unfold Reconcile
      rw [hget]
      simp only [he, Split_nil, hloop hP]
      cases w.StatusUpdate _ <;> rfl
    · intro e2 he2
      rw [he] at he2
      cases he2
    · intro e2 _
      unfold Reconcile
      rw [hget]
      simp only [he, Split_nil, hloop hP]
      cases w.StatusUpdate _ <;> exact ⟨rfl, rfl⟩

/-- C5 amended at concrete inputs: a pipe that cannot be created, and a read that
fails with nothing read. -/
theorem C5_listing_failure_returns_done_witness :
    ((Reconcile pipeFailWorld demoRequest).ret = some (Result.empty, none)
        ∧ statusWrites (Reconcile pipeFailWorld demoRequest).events = [])
      ∧ ((Reconcile emptyReadWorld demoRequest).ret = some (Result.empty, none)
        ∧ statusWrites (Reconcile emptyReadWorld demoRequest).events =
          [⟨demoExecutor.Spec, ⟨[]⟩⟩]) :=
  ⟨⟨(C5_listing_failure_returns_done pipeFailWorld demoRequest demoExecutor rfl
        (Or.inl ⟨errPipe, rfl⟩)).1,
    ((C5_listing_failure_returns_done pipeFailWorld demoRequest demoExecutor rfl
        (Or.inl ⟨errPipe, rfl⟩)).2.1 errPipe rfl).1⟩,
   ⟨(C5_listing_failure_returns_done emptyReadWorld demoRequest demoExecutor rfl
        (Or.inr ⟨errTimeout, rfl, by decide⟩)).1,
    ((C5_listing_failure_returns_done emptyReadWorld demoRequest demoExecutor rfl
        (Or.inr ⟨errTimeout, rfl, by decide⟩)).2.2 errTimeout rfl).1⟩⟩

/-- Had the listing of scenario 1 been read, it would not have been split: it
holds no match of the compiled expression and stays one container name. -/
theorem Split_scenario_listing :
    Split (lit "web-1\nweb-2\ndb-1\n") = [lit "web-1\nweb-2\ndb-1\n"] := by
  decide

/-- C6 on the code: in scenario 1 the listing command is built and its pipe read
but the command is never started, so the read returns no byte; the split gives
one empty container name, which does not contain web; no execution command is
built and the report written to the status is empty: it has no entry for web-1
and none for web-2. -/
theorem C6_scenario_pass_writes_empty_report :
    unstartedWorld.Get demoRequest = Except.ok demoExecutor
      ∧ unstartedWorld.pods (podsArgs demoRequest) = PipeRead.read [] none
      ∧ Split [] = [[]]
      ∧ Contains [] demoExecutor.Spec.ContainerName = false
      ∧ commandsBuilt (Reconcile unstartedWorld demoRequest).events = [podsArgs demoRequest]
      ∧ statusWrites (Reconcile unstartedWorld demoRequest).events =
          [⟨demoExecutor.Spec, ⟨[]⟩⟩]
      ∧ (Reconcile unstartedWorld demoRequest).ret = some (Result.empty, none)
      ∧ statusWrites (Reconcile unstartedWorld demoRequest).events ≠
          [⟨demoExecutor.Spec,
            ⟨lit "Container: web-1\noutput: hi\nContainer: web-2\noutput: hi\n"⟩⟩] := by
  refine ⟨rfl, rfl, rfl, ?_, ?_, ?_, ?_, ?_⟩ <;> decide


/-- C7, as stated, fails: the entry emitted for web-1 when its execution timed
out having captured nothing is the entry emitted when it succeeded having
printed nothing. -/
theorem C7_failed_entry_equals_success_entry :
    (reconcileLoop demoExecutor
        (fun k args => PipeRead.read (timedOutOuts k args).1 (timedOutOuts k args).2)
        [lit "web-1"] 0 []).2 =
      (reconcileLoop demoExecutor
        (fun k args => PipeRead.read (silentOuts k args).1 (silentOuts k args).2)
        [lit "web-1"] 0 []).2
      ∧ (timedOutOuts 0 (execArgs (lit "web-1") (lit "echo hi"))).2 = some errTimeout
      ∧ (silentOuts 0 (execArgs (lit "web-1") (lit "echo hi"))).2 = none := by
  refine ⟨?_, rfl, rfl⟩
  decide

/-- C7 amended: a per-container execution whose read returned an error is
recorded in the aggregate as an ordinary entry for that container, not dropped:
the report is the concatenation of one entry per matched container with the
output captured, and it is the same report as when every execution captured the
same output without error. -/
theorem C7_failure_entry_is_plain_entry (executor : Executor)
    (exec1 exec2 : Nat → List GoString → PipeRead)
    (outs1 outs2 : Nat → List GoString → GoString × Option GoError)
    (hexec1 : ∀ k args, exec1 k args = PipeRead.read (outs1 k args).1 (outs1 k args).2)
    (hexec2 : ∀ k args, exec2 k args = PipeRead.read (outs2 k args).1 (outs2 k args).2)
    (hsame : ∀ k args, (outs1 k args).1 = (outs2 k args).1)
    (L : List GoString) :
    reconcileLoop executor exec1 L 0 [] = reconcileLoop executor exec2 L 0 []
      ∧ (reconcileLoop executor exec1 L 0 []).2 =
        some (reportEntries executor.Spec.Command outs1
          (matchedContainers executor.Spec.ContainerName L)).flatten := by
  rw [reconcileLoop_reads executor exec1 outs1 hexec1,
    reconcileLoop_reads executor exec2 outs2 hexec2]
  refine ⟨?_, ?_⟩
  · simp only [hsame]
  · simp [reportEntries_eq]

/-- C7 amended at a concrete input: web-1 timed out and web-2 too, against both
having printed nothing. -/
theorem C7_failure_entry_is_plain_entry_witness :
    reconcileLoop demoExecutor
        (fun k args => PipeRead.read (timedOutOuts k args).1 (timedOutOuts k args).2)
        [lit "web-1", lit "web-2"] 0 [] =
      reconcileLoop demoExecutor
        (fun k args => PipeRead.read (silentOuts k args).1 (silentOuts k args).2)
        [lit "web-1", lit "web-2"] 0 [] :=
  (C7_failure_entry_is_plain_entry demoExecutor _ _ timedOutOuts silentOuts
    (fun _ _ => rfl) (fun _ _ => rfl) (fun _ _ => rfl) [lit "web-1", lit "web-2"]).1

/-- C9: the output written by a pass does not depend on the previous value of
the status: two passes over the same declaration spec, the same listing and the
same captured outputs, started from any two previous values, write the same
object, whose output is the report of this pass alone. -/
theorem C9_status_is_overwritten (w1 w2 : World) (req : Request)
    (spec : ExecutorSpec) (prev1 prev2 slurp : GoString) (rerr1 rerr2 : Option GoError)
    (outs : Nat → List GoString → GoString × Option GoError)
    (hget1 : w1.Get req = Except.ok ⟨spec, ⟨prev1⟩⟩)
    (hget2 : w2.Get req = Except.ok ⟨spec, ⟨prev2⟩⟩)
    (hpods1 : w1.pods (podsArgs req) = PipeRead.read slurp rerr1)
    (hpods2 : w2.pods (podsArgs req) = PipeRead.read slurp rerr2)
    (hexec1 : ∀ k args, w1.exec k args = PipeRead.read (outs k args).1 (outs k args).2)
    (hexec2 : ∀ k args, w2.exec k args = PipeRead.read (outs k args).1 (outs k args).2) :
    statusWrites (Reconcile w1 req).events = statusWrites (Reconcile w2 req).events
      ∧ statusWrites (Reconcile w1 req).events =
        [⟨spec, ⟨(reportEntries spec.Command outs
          (matchedContainers spec.ContainerName (Split slurp))).flatten⟩⟩] := by
  have h1 := (Reconcile_reads w1 req ⟨spec, ⟨prev1⟩⟩ slurp rerr1 outs hget1 hpods1 hexec1).1
  have h2 := (Reconcile_reads w2 req ⟨spec, ⟨prev2⟩⟩ slurp rerr2 outs hget2 hpods2 hexec2).1
  exact ⟨h1.trans h2.symm, h1⟩

/-- C9 at a concrete input: the world of scenario 1 started from two different
previous outputs. -/
theorem C9_status_is_overwritten_witness :
    statusWrites (Reconcile unstartedWorld demoRequest).events =
      statusWrites (Reconcile otherPriorWorld demoRequest).events :=
  (C9_status_is_overwritten unstartedWorld otherPriorWorld demoRequest demoExecutor.Spec
    (lit "stale") (lit "older") [] none none silentOuts
    rfl rfl rfl rfl (fun _ _ => rfl) (fun _ _ => rfl)).1

/-- The loop only builds commands. -/
theorem reconcileLoop_events (executor : Executor) (exec : Nat → List GoString → PipeRead)
    (L : List GoString) (k : Nat) (acc : GoString) :
    ∀ e ∈ (reconcileLoop executor exec L k acc).1, ∃ args, e = Event.command args := by
  induction L generalizing k acc with
  | nil => simp [reconcileLoop]
  | cons c rest ih =>
    unfold reconcileLoop
    by_cases h : Contains c executor.Spec.ContainerName = true
    · simp only [h, if_true]
      cases hx : exec k (execArgs c executor.Spec.Command) with
      | pipeFailed e => simp
      | read o e =>
        intro ev hev
        simp only [List.mem_cons] at hev
        rcases hev with hev | hev
        · exact ⟨_, hev⟩
        · exact ih _ _ ev hev
    · simp only [h, if_false, Bool.false_eq_true]
      exact ih _ _

/-- C10: if the status update of a pass fails, Reconcile still returns the empty
Result with a nil error, after logging the failure. -/
theorem C10_failed_status_write_returns_done (w : World) (req : Request)
    (obj : Executor) (err : GoError)
    (hattempt : Event.statusUpdate obj ∈ (Reconcile w req).events)
    (hfail : w.StatusUpdate obj = some err) :
    (Reconcile w req).ret = some (Result.empty, none)
      ∧ Event.logError err (lit "Unable to update executor status") ∈
          (Reconcile w req).events := by
  unfold Reconcile at hattempt ⊢
  cases hget : w.Get req with
  | error e =>
    rw [hget] at hattempt
    simp at hattempt
  | ok executor =>
    rw [hget] at hattempt
    simp only []
    cases hp : w.pods (podsArgs req) with
    | pipeFailed e =>
      rw [hp] at hattempt
      simp at hattempt
    | read slurp rerr =>
      rw [hp] at hattempt
      simp only [] at hattempt ⊢
      have hev := reconcileLoop_events executor w.exec (Split slurp) 0 []
      cases hr : (reconcileLoop executor w.exec (Split slurp) 0 []).2 with
      | none =>
        rw [hr] at hattempt
        simp only [List.mem_append, List.mem_cons, List.mem_singleton] at hattempt
        rcases hattempt with hattempt | hattempt
        · simp at hattempt
        · obtain ⟨args, ha⟩ := hev _ hattempt
          cases ha
      | some finalOut =>
        rw [hr] at hattempt
        simp only [] at hattempt ⊢
        have hobj : obj = ⟨executor.Spec, ⟨finalOut⟩⟩ := by
          cases hu : w.StatusUpdate ⟨executor.Spec, ⟨finalOut⟩⟩ with
          | none =>
            rw [hu] at hattempt
            simp only [List.mem_append, List.mem_cons, List.mem_singleton] at hattempt
            rcases hattempt with (hattempt | hattempt) | hattempt
            · simp at hattempt
            · obtain ⟨args, ha⟩ := hev _ hattempt
              cases ha
            · simpa using hattempt
          | some e2 =>
            rw [hu] at hattempt
            simp only [List.mem_append, List.mem_cons, List.mem_singleton] at hattempt
            rcases hattempt with (hattempt | hattempt) | hattempt
            · simp at hattempt
            · obtain ⟨args, ha⟩ := hev _ hattempt
              cases ha
            · simpa using hattempt
        rw [← hobj, hfail]
        simp

/-- C10 at a concrete input: the status writer rejects the update of the
scenario pass. -/
theorem C10_failed_status_write_returns_done_witness :
    failingWriteWorld.StatusUpdate ⟨demoExecutor.Spec, ⟨[]⟩⟩ = some errConflict
      ∧ (Reconcile failingWriteWorld demoRequest).ret = some (Result.empty, none) :=
  ⟨rfl, (C10_failed_status_write_returns_done failingWriteWorld demoRequest
    ⟨demoExecutor.Spec, ⟨[]⟩⟩ errConflict (by decide) rfl).1⟩

/-! ## Re-splitting a report -/

/-- Two texts cut at the first occurrence of a byte that neither head holds are
cut at the same place. -/
theorem append_cons_cancel (a : Nat) (s1 s2 t1 t2 : GoString)
    (h1 : a ∉ s1) (h2 : a ∉ s2) (h : s1 ++ a :: t1 = s2 ++ a :: t2) :
    s1 = s2 ∧ t1 = t2 := by
  induction s1 generalizing s2 with
  | nil =>
    cases s2 with
    | nil => simpa using h
    | cons b s2 =>
      simp only [List.nil_append, List.cons_append, List.cons.injEq] at h
      exact absurd (by simp [h.1]) h2
  | cons b s1 ih =>
    cases s2 with
    | nil =>
      simp only [List.nil_append, List.cons_append, List.cons.injEq] at h
      exact absurd (by simp [h.1]) h1
    | cons c s2 =>
      simp only [List.cons_append, List.cons.injEq] at h
      have hb : a ∉ s1 := fun e => h1 (List.mem_cons_of_mem _ e)
      have hc : a ∉ s2 := fun e => h2 (List.mem_cons_of_mem _ e)
      obtain ⟨e1, e2⟩ := ih s2 hb hc h.2
      exact ⟨by rw [h.1, e1], e2⟩

theorem sprintfEntry_append (n o rest : GoString) :
    sprintfEntry n o ++ rest =
      lit "Container: " ++ (n ++ newline :: (lit "output: " ++ (o ++ newline :: rest))) := by
  have e1 : lit "\noutput: " = newline :: lit "output: " := by decide
  have e2 : lit "\n" = [newline] := by decide
  simp [sprintfEntry, e1, e2]

/-- Reports of newline-free names and outputs split back into their pairs. -/
theorem entries_flatten_injective (ps qs : List (GoString × GoString))
    (hps : ∀ p ∈ ps, newline ∉ p.1 ∧ newline ∉ p.2)
    (hqs : ∀ q ∈ qs, newline ∉ q.1 ∧ newline ∉ q.2)
    (h : (ps.map (fun p => sprintfEntry p.1 p.2)).flatten =
      (qs.map (fun p => sprintfEntry p.1 p.2)).flatten) :
    ps = qs := by
  induction ps generalizing qs with
  | nil =>
    cases qs with
    | nil => rfl
    | cons q qs =>
      simp only [List.map_nil, List.flatten_nil, List.map_cons, List.flatten_cons,
        sprintfEntry_append] at h
      have := congrArg List.length h
      simp [lit] at this
  | cons p ps ih =>
    cases qs with
    | nil =>
      simp only [List.map_nil, List.flatten_nil, List.map_cons, List.flatten_cons,
        sprintfEntry_append] at h
      have := congrArg List.length h
      simp [lit] at this
    | cons q qs =>
      simp only [List.map_cons, List.flatten_cons, sprintfEntry_append] at h
      have h1 := List.append_cancel_left h
      have hp := hps p (List.mem_cons_self _ _)
      have hq := hqs q (List.mem_cons_self _ _)
      obtain ⟨en, h2⟩ := append_cons_cancel newline _ _ _ _ hp.1 hq.1 h1
      have h3 := List.append_cancel_left h2
      obtain ⟨eo, h4⟩ := append_cons_cancel newline _ _ _ _ hp.2 hq.2 h3
      have hrest := ih qs (fun x hx => hps x (List.mem_cons_of_mem _ hx))
        (fun x hx => hqs x (List.mem_cons_of_mem _ hx)) h4
      rw [hrest, Prod.ext en eo]

theorem reportEntries_eq_map_capturedPairs (command : GoString)
    (outs : Nat → List GoString → GoString × Option GoError) (matched : List GoString) :
    reportEntries command outs matched =
      (capturedPairs command outs matched).map (fun p => sprintfEntry p.1 p.2) := by
  simp [reportEntries, capturedPairs, sprintfEntry]

/-- C8, as stated, fails: one container a whose output holds the text of an
entry boundary gives the report of the two containers a and b. -/
theorem C8_reports_collide :
    (reconcileLoop matchAllExecutor
        (fun k args => PipeRead.read (collidingOuts k args).1 (collidingOuts k args).2)
        [lit "a"] 0 []).2 =
      (reconcileLoop matchAllExecutor
        (fun k args => PipeRead.read (plainOuts k args).1 (plainOuts k args).2)
        [lit "a", lit "b"] 0 []).2
      ∧ capturedPairs (lit "echo hi") collidingOuts (matchedContainers [] [lit "a"]) =
        [(lit "a", lit "x\nContainer: b\noutput: y")]
      ∧ capturedPairs (lit "echo hi") plainOuts (matchedContainers [] [lit "a", lit "b"]) =
        [(lit "a", lit "x"), (lit "b", lit "y")]
      ∧ capturedPairs (lit "echo hi") collidingOuts (matchedContainers [] [lit "a"]) ≠
        capturedPairs (lit "echo hi") plainOuts (matchedContainers [] [lit "a", lit "b"]) := by
  refine ⟨?_, ?_, ?_, ?_⟩ <;> decide

/-- C8 amended: when no matched container name and no captured output holds a
newline, the report can be re-split: two runs of the loop that end with the same
report have the same list of (container name, captured output) pairs. -/
theorem C8_newline_free_reports_resplit (executor1 executor2 : Executor)
    (exec1 exec2 : Nat → List GoString → PipeRead)
    (outs1 outs2 : Nat → List GoString → GoString × Option GoError)
    (hexec1 : ∀ k args, exec1 k args = PipeRead.read (outs1 k args).1 (outs1 k args).2)
    (hexec2 : ∀ k args, exec2 k args = PipeRead.read (outs2 k args).1 (outs2 k args).2)
    (L1 L2 : List GoString)
    (hnl1 : ∀ p ∈ capturedPairs executor1.Spec.Command outs1
        (matchedContainers executor1.Spec.ContainerName L1), newline ∉ p.1 ∧ newline ∉ p.2)
    (hnl2 : ∀ p ∈ capturedPairs executor2.Spec.Command outs2
        (matchedContainers executor2.Spec.ContainerName L2), newline ∉ p.1 ∧ newline ∉ p.2)
    (heq : (reconcileLoop executor1 exec1 L1 0 []).2 =
      (reconcileLoop executor2 exec2 L2 0 []).2) :
    capturedPairs executor1.Spec.Command outs1
        (matchedContainers executor1.Spec.ContainerName L1) =
      capturedPairs executor2.Spec.Command outs2
        (matchedContainers executor2.Spec.ContainerName L2) := by
  rw [reconcileLoop_reads executor1 exec1 outs1 hexec1,
    reconcileLoop_reads executor2 exec2 outs2 hexec2] at heq
  simp only [List.nil_append, Option.some.injEq, ← reportEntries_eq,
    reportEntries_eq_map_capturedPairs] at heq
  exact entries_flatten_injective _ _ hnl1 hnl2 heq

/-- C8 amended at a concrete input: two different runs with the same report, one
matching every name of web and etc, the other the names holding an e among
web, db and etc; their pairs are the same. -/
theorem C8_newline_free_reports_resplit_witness :
    capturedPairs (lit "echo hi") plainOuts
        (matchedContainers [] [lit "web", lit "etc"]) =
      capturedPairs (lit "date") plainOuts
        (matchedContainers (lit "e") [lit "web", lit "db", lit "etc"]) :=
  C8_newline_free_reports_resplit matchAllExecutor dateExecutor
    (fun k args => PipeRead.read (plainOuts k args).1 (plainOuts k args).2)
    (fun k args => PipeRead.read (plainOuts k args).1 (plainOuts k args).2)
    plainOuts plainOuts (fun _ _ => rfl) (fun _ _ => rfl)
    [lit "web", lit "etc"] [lit "web", lit "db", lit "etc"]
    (by decide) (by decide) (by decide)

end Controllers
